import Mathlib

/-!
Verification of the countdown store and reminder scheduler of
`astrbot-plugin-countdown` (src/main.py), as a shallow embedding.

Modelling conventions, shared by all definitions below:

* Calendar dates are represented by their day numbers (an `Int`).  The code
  stores dates as `YYYY-MM-DD` strings validated by
  `datetime.strptime(date_str, "%Y-%m-%d")`; for such canonical ISO strings,
  string equality and the lexicographic string order used by the list sort
  coincide with day-number equality and order, and Python's
  `(target_date - today).days` is exactly day-number subtraction.  `dateStr`
  stands for the (injective, order-preserving) ISO rendering of a day number.

* The in-memory store `self.countdowns` is a Python dict mapping owner keys
  to lists of record dicts; it is modelled as an association list that
  preserves insertion order, as Python dicts do (`lookupOwner` models `in` /
  subscripting, `setOwner` models assignment: in-place update of an existing
  key, append for a fresh key).

* The record dict built at src/main.py:332-339 becomes the `Countdown`
  structure.  Note that `notified_days` holds *strings*: `check_reminders`
  appends `str(days_left)` (src/main.py:440) and tests membership of
  `str(days_left)` (src/main.py:437).

* Message delivery is modelled by an `Oracle` giving the success/failure of
  each transport attempt.  `send_reminder` (src/main.py:446-483) wraps the
  whole delivery in `try/except` blocks that log and swallow every
  exception, so in the model it always returns, merely recording the
  attempt; `check_reminders` then marks the threshold unconditionally.
  A scan produces a trace of `Ev` events in program order: the delivery
  attempt first (line 438), then the mark (line 440).
-/

/-- A countdown record, mirroring the dict created at src/main.py:332-339.
`target_date` and `created_date` are day numbers (see the header comment);
`notified_days` is the list of already-fired thresholds *as strings*, exactly
as the code stores them. -/
structure Countdown where
  id : Int
  name : String
  target_date : Int
  created_date : Int
  remark : String
  notified_days : List String
deriving DecidableEq

/-- The store `self.countdowns`: owner key to list of records, insertion
ordered like a Python dict. -/
abbrev Store := List (String × List Countdown)

/-- Dict membership / subscripting `self.countdowns[user_key]`: first binding
of the key, if any. -/
def lookupOwner : Store → String → Option (List Countdown)
  | [], _ => none
  | (k, l) :: rest, key => if k = key then some l else lookupOwner rest key

/-- Dict assignment `self.countdowns[user_key] = l`: replaces the value of an
existing key in place, appends a fresh key at the end (Python dicts preserve
insertion order). -/
def setOwner : Store → String → List Countdown → Store
  | [], key, l => [(key, l)]
  | (k, v) :: rest, key, l =>
      if k = key then (key, l) :: rest else (k, v) :: setOwner rest key l

/-- src/main.py:68-70 `get_user_key`: the owner key is
`f"{user_id}_{group_id}"` when `group_id` is truthy (non-empty), else just
`user_id`. -/
def get_user_key (user_id group_id : String) : String :=
  if group_id = "" then user_id else user_id ++ "_" ++ group_id

/-- src/main.py:72-76 `get_next_id`: 1 if the owner is unknown, otherwise
`max(ids, default=0) + 1`. -/
def get_next_id (store : Store) (key : String) : Int :=
  match lookupOwner store key with
  | none => 1
  | some l =>
      (match l.map (fun cd => cd.id) with
       | [] => 0
       | x :: xs => xs.foldl max x) + 1

/-- src/main.py:361 / 433: `(target_date - today).days` as day-number
subtraction. -/
def days_left (cd : Countdown) (today : Int) : Int :=
  cd.target_date - today

/-- The derived per-record view dict built by `get_user_countdowns`
(src/main.py:365-372). -/
structure Entry where
  id : Int
  name : String
  target_date : Int
  days_left : Int
  remark : String
  status : String
deriving DecidableEq

/-- src/main.py:359-372: one derived entry, including the textual status of
line 363. -/
def mkEntry (today : Int) (cd : Countdown) : Entry :=
  let d := days_left cd today
  { id := cd.id
    name := cd.name
    target_date := cd.target_date
    days_left := d
    remark := cd.remark
    status := if d < 0 then "已过期" else "剩余" ++ toString d ++ "天" }

/-- One insertion step of the stable sort modelling
`result.sort(key=lambda x: x["target_date"])` (src/main.py:375): the new
element goes in front of the first element whose key is not smaller, so
elements with equal keys keep their original relative order. -/
def insertByDate (e : Entry) : List Entry → List Entry
  | [] => [e]
  | x :: xs =>
      if x.target_date < e.target_date then x :: insertByDate e xs
      else e :: x :: xs

/-- Stable sort by `target_date`, modelling Python's stable `list.sort` with
the key of src/main.py:375. -/
def sortByDate : List Entry → List Entry
  | [] => []
  | x :: xs => insertByDate x (sortByDate xs)

/-- src/main.py:352-376 `get_user_countdowns`: empty if the owner is unknown,
otherwise the derived entries sorted (stably) by target date. -/
def get_user_countdowns (store : Store) (key : String) (today : Int) : List Entry :=
  match lookupOwner store key with
  | none => []
  | some l => sortByDate (l.map (mkEntry today))

/-- The accumulation loop of `get_recent_countdowns` (src/main.py:383-385):
keep the entries with `0 <= days_left <= days`. -/
def recentLoop (days : Int) : List Entry → List Entry
  | [] => []
  | e :: rest =>
      if 0 ≤ e.days_left ∧ e.days_left ≤ days then e :: recentLoop days rest
      else recentLoop days rest

/-- src/main.py:378-387 `get_recent_countdowns`. -/
def get_recent_countdowns (store : Store) (key : String) (today days : Int) :
    List Entry :=
  recentLoop days (get_user_countdowns store key today)

/-- Removal of the first record with the given id, modelling the
`for i, cd in enumerate(...)` loop with `del` at src/main.py:405-409. -/
def removeFirst (cid : Int) : List Countdown → Option (List Countdown)
  | [] => none
  | cd :: rest =>
      if cd.id = cid then some rest
      else (removeFirst cid rest).map (fun l => cd :: l)

/-- src/main.py:399-411 `delete_countdown`: `False` if the owner is unknown
or no record has the id, otherwise remove the first match and report
`True`. -/
def delete_countdown (store : Store) (key : String) (cid : Int) : Bool × Store :=
  match lookupOwner store key with
  | none => (false, store)
  | some l =>
      match removeFirst cid l with
      | none => (false, store)
      | some l2 => (true, setOwner store key l2)

/-- The error string of src/main.py:317. -/
def pastDateMsg : String := "目标日期不能是过去的时间"

/-- The error string of src/main.py:324. -/
def capacityMsg (m : Int) : String :=
  "已达到最大倒数日数量限制(" ++ toString m ++ "个)"

/-- The success string of src/main.py:344. -/
def addSuccessMsg : String := "添加成功"

/-- src/main.py:309-350 `add_countdown` with the date already parsed to a day
number (the strptime validation step is the date abstraction of the header
comment).  `max_count` is the `max_countdowns` config value.  Checks, in
program order: past date (line 316), capacity against
`len(get_user_countdowns(user_key))` (lines 320-324), then ensures the key
exists, takes `get_next_id`, appends the fresh record and stores it. -/
def add_countdown (max_count : Int) (store : Store) (key name : String)
    (target today : Int) (remark : String) : (Bool × String) × Store :=
  if target < today then ((false, pastDateMsg), store)
  else if max_count ≤ ((get_user_countdowns store key today).length : Int) then
    ((false, capacityMsg max_count), store)
  else
    let cid := get_next_id store key
    let cd : Countdown :=
      { id := cid, name := name, target_date := target, created_date := today
        remark := remark, notified_days := [] }
    let l := (lookupOwner store key).getD []
    ((true, addSuccessMsg), setOwner store key (l ++ [cd]))

/-- Success or failure of one transport attempt by the messaging platform,
indexed by owner key, record and days-left.  The scheduler never looks at
it: `send_reminder` catches and logs every delivery exception
(src/main.py:472-483). -/
def Oracle := String → Countdown → Int → Bool

/-- Observable events of one scheduler scan, in program order. -/
inductive Ev where
  | deliver (key : String) (cd : Countdown) (d : Int) (ok : Bool)
  | mark (key : String) (id : Int) (d : Int)
deriving DecidableEq

/-- src/main.py:431-441, the body of the scan for one record: compute
`days_left`; if it is a configured threshold whose string form is not yet in
`notified_days`, attempt delivery (line 438, `send_reminder` always returns)
and then append `str(days_left)` to `notified_days` (line 440). -/
def scanRecord (o : Oracle) (cfg : List Int) (today : Int) (key : String)
    (cd : Countdown) : Countdown × List Ev :=
  let d := days_left cd today
  if d ∈ cfg then
    if toString d ∈ cd.notified_days then (cd, [])
    else
      ({ cd with notified_days := cd.notified_days ++ [toString d] },
       [Ev.deliver key cd d (o key cd d), Ev.mark key cd.id d])
  else (cd, [])

/-- The inner `for cd in countdown_list` loop of src/main.py:431. -/
def scanList (o : Oracle) (cfg : List Int) (today : Int) (key : String) :
    List Countdown → List Countdown × List Ev
  | [] => ([], [])
  | cd :: rest =>
      let p := scanRecord o cfg today key cd
      let q := scanList o cfg today key rest
      (p.1 :: q.1, p.2 ++ q.2)

/-- src/main.py:424-444 `check_reminders`: the outer loop over
`self.countdowns.items()`, threading the record mutations and collecting the
event trace. -/
def check_reminders (o : Oracle) (cfg : List Int) (today : Int) :
    Store → Store × List Ev
  | [] => ([], [])
  | (key, l) :: rest =>
      let p := scanList o cfg today key l
      let q := check_reminders o cfg today rest
      ((key, p.1) :: q.1, p.2 ++ q.2)

/-- Python's `key.split("_")` on character lists: `cur` is the reversed
current chunk. -/
def splitU (cur : List Char) : List Char → List (List Char)
  | [] => [cur.reverse]
  | c :: rest =>
      if c = '_' then cur.reverse :: splitU [] rest
      else splitU (c :: cur) rest

/-- `user_key.split("_")` (src/main.py:450). -/
def split_underscore (s : String) : List String :=
  (splitU [] s.data).map (fun l => String.mk l)

/-- src/main.py:449-455, the owner-key decoding in `send_reminder`: two
chunks give `(user_id, group_id)`, otherwise the first chunk is the user and
the group is empty.  `split` never returns an empty list. -/
def decode_user_key (key : String) : String × String :=
  match split_underscore key with
  | [a, b] => (a, b)
  | a :: _ => (a, "")
  | [] => ("", "")

/-- JSON values, as far as `json.dump` of the store needs them. -/
inductive JVal where
  | jnum (n : Int)
  | jstr (s : String)
  | jarr (elems : List JVal)

/-- The ISO rendering of a day number written into the persisted file; see
the header comment (injective and order preserving, abstracted here as the
decimal rendering of the day number). -/
def dateStr (d : Int) : String := toString d

/-- `json.dump` of one record dict (src/main.py:60-64 over the dict of lines
332-339): field order and value kinds as Python serialises them.
`notified_days`, a Python list of `str`, becomes a JSON array of strings. -/
def serializeCountdown (cd : Countdown) : List (String × JVal) :=
  [("id", JVal.jnum cd.id),
   ("name", JVal.jstr cd.name),
   ("target_date", JVal.jstr (dateStr cd.target_date)),
   ("created_date", JVal.jstr (dateStr cd.created_date)),
   ("remark", JVal.jstr cd.remark),
   ("notified_days", JVal.jarr (cd.notified_days.map JVal.jstr))]

/-- Field lookup in a serialised object. -/
def lookupField : List (String × JVal) → String → Option JVal
  | [], _ => none
  | (k, v) :: rest, f => if k = f then some v else lookupField rest f

/-- Whether a serialised field is a JSON array of numbers. -/
def isIntArray : Option JVal → Bool
  | some (JVal.jarr l) =>
      l.all (fun v => match v with | JVal.jnum _ => true | _ => false)
  | _ => false

/-- Whether a serialised field is a JSON array of strings. -/
def isStrArray : Option JVal → Bool
  | some (JVal.jarr l) =>
      l.all (fun v => match v with | JVal.jstr _ => true | _ => false)
  | _ => false

/-- The property claimed for the scan trace: every delivery is preceded by
the matching mark (`seen` collects the marks already emitted). -/
def marksPrecedeAux (seen : List (String × Int × Int)) : List Ev → Bool
  | [] => true
  | Ev.mark k i d :: rest => marksPrecedeAux ((k, i, d) :: seen) rest
  | Ev.deliver k cd d _ :: rest =>
      decide ((k, cd.id, d) ∈ seen) && marksPrecedeAux seen rest

/-- The threshold mark precedes (or coincides with) the delivery in the
trace, for every delivery of the trace. -/
def deliveryNeverPrecedesMark (tr : List Ev) : Bool :=
  marksPrecedeAux [] tr

/-- Each delivery attempt is immediately followed by the matching mark. -/
def deliverImmediatelyMarked : List Ev → Bool
  | [] => true
  | Ev.deliver k cd d _ :: Ev.mark k2 i d2 :: rest =>
      decide (k = k2 ∧ cd.id = i ∧ d = d2) && deliverImmediatelyMarked rest
  | Ev.deliver _ _ _ _ :: _ => false
  | Ev.mark _ _ _ :: rest => deliverImmediatelyMarked rest

/-- Normalise the transport outcome recorded in a delivery event, to state
that nothing else in a trace depends on delivery success. -/
def stripOk : Ev → Ev
  | Ev.deliver k cd d _ => Ev.deliver k cd d true
  | e => e

/-- The eligibility predicate in the spec's words: days-left is a configured
threshold and that threshold (as stored, its decimal string) has not fired
yet for the record. -/
def eligible (cfg : List Int) (today : Int) (cd : Countdown) : Prop :=
  days_left cd today ∈ cfg ∧ toString (days_left cd today) ∉ cd.notified_days

instance (cfg : List Int) (today : Int) (cd : Countdown) :
    Decidable (eligible cfg today cd) := by
  unfold eligible; infer_instance

/-! ### Scan lemmas -/

lemma scanRecord_eq (o : Oracle) (cfg : List Int) (today : Int) (key : String)
    (cd : Countdown) :
    scanRecord o cfg today key cd =
      if eligible cfg today cd then
        ({ cd with notified_days := cd.notified_days ++ [toString (days_left cd today)] },
         [Ev.deliver key cd (days_left cd today) (o key cd (days_left cd today)),
          Ev.mark key cd.id (days_left cd today)])
      else (cd, []) := by
  unfold scanRecord eligible
  by_cases h1 : days_left cd today ∈ cfg
  · by_cases h2 : toString (days_left cd today) ∈ cd.notified_days
    · simp [h1, h2]
    · simp [h1, h2]
  · simp [h1]

lemma mark_mem_scanRecord (o : Oracle) (cfg : List Int) (today : Int) (key : String)
    (cd : Countdown) (k : String) (i d : Int) :
    Ev.mark k i d ∈ (scanRecord o cfg today key cd).2 ↔
      k = key ∧ i = cd.id ∧ d = days_left cd today ∧ eligible cfg today cd := by
  rw [scanRecord_eq]
  by_cases h : eligible cfg today cd
  · simp [h]
  · simp [h]

lemma deliver_mem_scanRecord (o : Oracle) (cfg : List Int) (today : Int) (key : String)
    (cd : Countdown) (h : eligible cfg today cd) :
    Ev.deliver key cd (days_left cd today) (o key cd (days_left cd today)) ∈
      (scanRecord o cfg today key cd).2 := by
  rw [scanRecord_eq, if_pos h]
  simp

lemma mark_mem_scanList (o : Oracle) (cfg : List Int) (today : Int) (key : String)
    (l : List Countdown) (k : String) (i d : Int) :
    Ev.mark k i d ∈ (scanList o cfg today key l).2 ↔
      ∃ cd ∈ l, k = key ∧ i = cd.id ∧ d = days_left cd today ∧ eligible cfg today cd := by
  induction l with
  | nil => simp [scanList]
  | cons cd rest ih =>
      simp only [scanList, List.mem_append, ih, mark_mem_scanRecord, List.mem_cons]
      constructor
      · rintro (⟨hk, hi, hd, he⟩ | ⟨x, hx, hk, hi, hd, he⟩)
        · exact ⟨cd, Or.inl rfl, hk, hi, hd, he⟩
        · exact ⟨x, Or.inr hx, hk, hi, hd, he⟩
      · rintro ⟨x, hx | hx, hk, hi, hd, he⟩
        · subst hx; exact Or.inl ⟨hk, hi, hd, he⟩
        · exact Or.inr ⟨x, hx, hk, hi, hd, he⟩

lemma mark_mem_check (o : Oracle) (cfg : List Int) (today : Int) (store : Store)
    (k : String) (i d : Int) :
    Ev.mark k i d ∈ (check_reminders o cfg today store).2 ↔
      ∃ l, (k, l) ∈ store ∧ ∃ cd ∈ l,
        i = cd.id ∧ d = days_left cd today ∧ eligible cfg today cd := by
  induction store with
  | nil => simp [check_reminders]
  | cons kl rest ih =>
      obtain ⟨key, l⟩ := kl
      simp only [check_reminders, List.mem_append, ih, mark_mem_scanList, List.mem_cons]
      constructor
      · rintro (⟨cd, hcd, hk, hi, hd, he⟩ | ⟨l2, hl2, cd, hcd, hi, hd, he⟩)
        · subst hk; exact ⟨l, Or.inl rfl, cd, hcd, hi, hd, he⟩
        · exact ⟨l2, Or.inr hl2, cd, hcd, hi, hd, he⟩
      · rintro ⟨l2, hl2 | hl2, cd, hcd, hi, hd, he⟩
        · rw [Prod.mk.injEq] at hl2
          obtain ⟨hk, hl⟩ := hl2
          subst hk; subst hl
          exact Or.inl ⟨cd, hcd, rfl, hi, hd, he⟩
        · exact Or.inr ⟨l2, hl2, cd, hcd, hi, hd, he⟩

lemma deliver_mem_scanList (o : Oracle) (cfg : List Int) (today : Int) (key : String)
    (l : List Countdown) (cd : Countdown) (hcd : cd ∈ l) (h : eligible cfg today cd) :
    Ev.deliver key cd (days_left cd today) (o key cd (days_left cd today)) ∈
      (scanList o cfg today key l).2 := by
  induction l with
  | nil => cases hcd
  | cons x rest ih =>
      rcases List.mem_cons.mp hcd with hx | hx
      · subst hx
        exact List.mem_append_left _ (deliver_mem_scanRecord o cfg today key cd h)
      · exact List.mem_append_right _ (ih hx)

lemma deliver_mem_check (o : Oracle) (cfg : List Int) (today : Int) (store : Store)
    (key : String) (l : List Countdown) (cd : Countdown)
    (hl : (key, l) ∈ store) (hcd : cd ∈ l) (h : eligible cfg today cd) :
    Ev.deliver key cd (days_left cd today) (o key cd (days_left cd today)) ∈
      (check_reminders o cfg today store).2 := by
  induction store with
  | nil => cases hl
  | cons kl rest ih =>
      obtain ⟨k2, l2⟩ := kl
      rcases List.mem_cons.mp hl with hx | hx
      · rw [Prod.mk.injEq] at hx
        obtain ⟨hk, hll⟩ := hx
        subst hk; subst hll
        exact List.mem_append_left _ (deliver_mem_scanList o cfg today key l cd hcd h)
      · exact List.mem_append_right _ (ih hx)

lemma mark_mem_check_of_eligible (o : Oracle) (cfg : List Int) (today : Int)
    (store : Store) (key : String) (l : List Countdown) (cd : Countdown)
    (hl : (key, l) ∈ store) (hcd : cd ∈ l) (h : eligible cfg today cd) :
    Ev.mark key cd.id (days_left cd today) ∈ (check_reminders o cfg today store).2 :=
  (mark_mem_check o cfg today store key cd.id (days_left cd today)).mpr
    ⟨l, hl, cd, hcd, rfl, rfl, h⟩

lemma scanRecord_fst_not_eligible (o : Oracle) (cfg : List Int) (today : Int)
    (key : String) (cd : Countdown) :
    ¬ eligible cfg today (scanRecord o cfg today key cd).1 := by
  rw [scanRecord_eq]
  by_cases h : eligible cfg today cd
  · rw [if_pos h]
    intro hcontra
    exact hcontra.2 (by simp [days_left])
  · rw [if_neg h]
    exact h

lemma scanRecord_fst_of_not_eligible (o : Oracle) (cfg : List Int) (today : Int)
    (key : String) (cd : Countdown) (h : ¬ eligible cfg today cd) :
    (scanRecord o cfg today key cd).1 = cd := by
  rw [scanRecord_eq, if_neg h]

lemma scanRecord_evs_of_not_eligible (o : Oracle) (cfg : List Int) (today : Int)
    (key : String) (cd : Countdown) (h : ¬ eligible cfg today cd) :
    (scanRecord o cfg today key cd).2 = [] := by
  rw [scanRecord_eq, if_neg h]

lemma scanList_fst_not_eligible (o : Oracle) (cfg : List Int) (today : Int)
    (key : String) (l : List Countdown) :
    ∀ cd ∈ (scanList o cfg today key l).1, ¬ eligible cfg today cd := by
  induction l with
  | nil => simp [scanList]
  | cons cd rest ih =>
      intro x hx
      rcases List.mem_cons.mp hx with hx | hx
      · subst hx
        exact scanRecord_fst_not_eligible o cfg today key cd
      · exact ih x hx

lemma scanList_fixpoint (o : Oracle) (cfg : List Int) (today : Int) (key : String)
    (l : List Countdown) (h : ∀ cd ∈ l, ¬ eligible cfg today cd) :
    scanList o cfg today key l = (l, []) := by
  induction l with
  | nil => rfl
  | cons cd rest ih =>
      have h1 := h cd (List.mem_cons_self cd rest)
      have h2 : ∀ x ∈ rest, ¬ eligible cfg today x :=
        fun x hx => h x (List.mem_cons_of_mem cd hx)
      simp [scanList, ih h2, scanRecord_fst_of_not_eligible o cfg today key cd h1,
        scanRecord_evs_of_not_eligible o cfg today key cd h1]

lemma check_fst_not_eligible (o : Oracle) (cfg : List Int) (today : Int)
    (store : Store) :
    ∀ p ∈ (check_reminders o cfg today store).1, ∀ cd ∈ p.2,
      ¬ eligible cfg today cd := by
  induction store with
  | nil => simp [check_reminders]
  | cons kl rest ih =>
      obtain ⟨key, l⟩ := kl
      intro p hp
      rcases List.mem_cons.mp hp with hp | hp
      · subst hp
        exact scanList_fst_not_eligible o cfg today key l
      · exact ih p hp

lemma check_fixpoint (o : Oracle) (cfg : List Int) (today : Int) (store : Store)
    (h : ∀ p ∈ store, ∀ cd ∈ p.2, ¬ eligible cfg today cd) :
    check_reminders o cfg today store = (store, []) := by
  induction store with
  | nil => rfl
  | cons kl rest ih =>
      obtain ⟨key, l⟩ := kl
      have h1 : ∀ cd ∈ l, ¬ eligible cfg today cd :=
        h (key, l) (List.mem_cons_self _ rest)
      have h2 : ∀ p ∈ rest, ∀ cd ∈ p.2, ¬ eligible cfg today cd :=
        fun p hp => h p (List.mem_cons_of_mem _ hp)
      simp [check_reminders, ih h2, scanList_fixpoint o cfg today key l h1]

lemma rescan_trivial (o o2 : Oracle) (cfg : List Int) (today : Int) (store : Store) :
    check_reminders o2 cfg today (check_reminders o cfg today store).1 =
      ((check_reminders o cfg today store).1, []) :=
  check_fixpoint o2 cfg today _ (check_fst_not_eligible o cfg today store)

lemma scanRecord_fst_oracle (o o2 : Oracle) (cfg : List Int) (today : Int)
    (key : String) (cd : Countdown) :
    (scanRecord o cfg today key cd).1 = (scanRecord o2 cfg today key cd).1 := by
  rw [scanRecord_eq, scanRecord_eq]
  split <;> rfl

lemma scanRecord_evs_oracle (o o2 : Oracle) (cfg : List Int) (today : Int)
    (key : String) (cd : Countdown) :
    (scanRecord o cfg today key cd).2.map stripOk =
      (scanRecord o2 cfg today key cd).2.map stripOk := by
  rw [scanRecord_eq, scanRecord_eq]
  split <;> simp [stripOk]

lemma scanList_fst_oracle (o o2 : Oracle) (cfg : List Int) (today : Int)
    (key : String) (l : List Countdown) :
    (scanList o cfg today key l).1 = (scanList o2 cfg today key l).1 := by
  induction l with
  | nil => rfl
  | cons cd rest ih =>
      simp [scanList, ih, scanRecord_fst_oracle o o2 cfg today key cd]

lemma scanList_evs_oracle (o o2 : Oracle) (cfg : List Int) (today : Int)
    (key : String) (l : List Countdown) :
    (scanList o cfg today key l).2.map stripOk =
      (scanList o2 cfg today key l).2.map stripOk := by
  induction l with
  | nil => rfl
  | cons cd rest ih =>
      simp only [scanList, List.map_append, ih,
        scanRecord_evs_oracle o o2 cfg today key cd]

lemma check_fst_oracle (o o2 : Oracle) (cfg : List Int) (today : Int)
    (store : Store) :
    (check_reminders o cfg today store).1 = (check_reminders o2 cfg today store).1 := by
  induction store with
  | nil => rfl
  | cons kl rest ih =>
      obtain ⟨key, l⟩ := kl
      simp [check_reminders, ih, scanList_fst_oracle o o2 cfg today key l]

lemma check_evs_oracle (o o2 : Oracle) (cfg : List Int) (today : Int)
    (store : Store) :
    (check_reminders o cfg today store).2.map stripOk =
      (check_reminders o2 cfg today store).2.map stripOk := by
  induction store with
  | nil => rfl
  | cons kl rest ih =>
      obtain ⟨key, l⟩ := kl
      simp only [check_reminders, List.map_append, ih,
        scanList_evs_oracle o o2 cfg today key l]

/-! ### Sorting lemmas -/

/-- The display order claimed for the listing: target date ascending, ties
broken by id ascending. -/
def dateIdLT (a b : Entry) : Prop :=
  a.target_date < b.target_date ∨ (a.target_date = b.target_date ∧ a.id < b.id)

lemma insertByDate_perm (e : Entry) (l : List Entry) :
    List.Perm (insertByDate e l) (e :: l) := by
  induction l with
  | nil => exact List.Perm.refl _
  | cons x xs ih =>
      by_cases h : x.target_date < e.target_date
      · simp only [insertByDate, if_pos h]
        exact List.Perm.trans (List.Perm.cons x ih) (List.Perm.swap e x xs)
      · simp only [insertByDate, if_neg h]
        exact List.Perm.refl _

lemma sortByDate_perm (l : List Entry) : List.Perm (sortByDate l) l := by
  induction l with
  | nil => exact List.Perm.refl _
  | cons x xs ih =>
      exact List.Perm.trans (insertByDate_perm x (sortByDate xs)) (List.Perm.cons x ih)

lemma insertByDate_pairwise (e : Entry) (l : List Entry)
    (hl : l.Pairwise dateIdLT)
    (he : ∀ b ∈ l, e.target_date = b.target_date → e.id < b.id) :
    (insertByDate e l).Pairwise dateIdLT := by
  induction l with
  | nil => simp [insertByDate]
  | cons x xs ih =>
      rcases List.pairwise_cons.mp hl with ⟨hx, hxs⟩
      by_cases h : x.target_date < e.target_date
      · simp only [insertByDate, if_pos h]
        refine List.pairwise_cons.mpr ⟨?_, ?_⟩
        · intro y hy
          rcases List.mem_cons.mp ((insertByDate_perm e xs).mem_iff.mp hy) with hy | hy
          · subst hy
            exact Or.inl h
          · exact hx y hy
        · exact ih hxs (fun b hb hd => he b (List.mem_cons_of_mem x hb) hd)
      · simp only [insertByDate, if_neg h]
        refine List.pairwise_cons.mpr ⟨?_, hl⟩
        intro y hy
        rcases List.mem_cons.mp hy with hy | hy
        · subst hy
          rcases lt_or_eq_of_le (not_lt.mp h) with h2 | h2
          · exact Or.inl h2
          · exact Or.inr ⟨h2, he y (List.mem_cons_self y xs) h2⟩
        · have hxy : y.target_date ≥ e.target_date := by
            rcases hx y hy with h1 | ⟨h1, _⟩
            · exact le_trans (not_lt.mp h) (le_of_lt h1)
            · exact le_trans (not_lt.mp h) (le_of_eq h1)
          rcases lt_or_eq_of_le hxy with h2 | h2
          · exact Or.inl h2
          · exact Or.inr ⟨h2, he y (List.mem_cons_of_mem x hy) h2⟩

lemma sortByDate_pairwise (l : List Entry)
    (h : l.Pairwise (fun a b => a.id < b.id)) :
    (sortByDate l).Pairwise dateIdLT := by
  induction l with
  | nil => simp [sortByDate]
  | cons e xs ih =>
      rcases List.pairwise_cons.mp h with ⟨he, hxs⟩
      simp only [sortByDate]
      exact insertByDate_pairwise e (sortByDate xs) (ih hxs)
        (fun b hb _ => he b ((sortByDate_perm xs).mem_iff.mp hb))

/-! ### Fold-max lemmas for get_next_id -/

lemma foldl_max_le_self (x : Int) (xs : List Int) : x ≤ xs.foldl max x := by
  induction xs generalizing x with
  | nil => exact le_refl x
  | cons c cs ih => exact le_trans (le_max_left x c) (ih (max x c))

lemma foldl_max_le_mem (x y : Int) (xs : List Int) (h : y ∈ xs) :
    y ≤ xs.foldl max x := by
  induction xs generalizing x with
  | nil => cases h
  | cons c cs ih =>
      rcases List.mem_cons.mp h with h2 | h2
      · subst h2
        exact le_trans (le_max_right x y) (foldl_max_le_self (max x y) cs)
      · exact ih (max x c) h2

lemma foldl_max_mem_or_self (x : Int) (xs : List Int) :
    xs.foldl max x = x ∨ xs.foldl max x ∈ xs := by
  induction xs generalizing x with
  | nil => exact Or.inl rfl
  | cons c cs ih =>
      rcases ih (max x c) with h | h
      · rcases max_choice x c with h2 | h2
        · exact Or.inl (by rw [List.foldl_cons, h, h2])
        · refine Or.inr (List.mem_cons.mpr (Or.inl ?_))
          rw [List.foldl_cons, h, h2]
      · exact Or.inr (List.mem_cons_of_mem c h)

/-! ### Store operation lemmas -/

lemma removeFirst_isSome_iff (cid : Int) (l : List Countdown) :
    (removeFirst cid l).isSome = true ↔ ∃ cd ∈ l, cd.id = cid := by
  induction l with
  | nil => simp [removeFirst]
  | cons cd rest ih =>
      by_cases h : cd.id = cid
      · simp [removeFirst, h]
      · simp [removeFirst, h, ih]

lemma removeFirst_length (cid : Int) (l : List Countdown) :
    ∀ l2, removeFirst cid l = some l2 → l2.length + 1 = l.length := by
  induction l with
  | nil => intro l2 h; cases h
  | cons cd rest ih =>
      intro l2 h
      by_cases hc : cd.id = cid
      · simp only [removeFirst, if_pos hc, Option.some.injEq] at h
        subst h
        simp
      · simp only [removeFirst, if_neg hc, Option.map_eq_some'] at h
        obtain ⟨a, ha, h2⟩ := h
        subst h2
        simp only [List.length_cons]
        rw [ih a ha]

lemma lookupOwner_setOwner_self (store : Store) (key : String) (l : List Countdown) :
    lookupOwner (setOwner store key l) key = some l := by
  induction store with
  | nil => simp [setOwner, lookupOwner]
  | cons kv rest ih =>
      obtain ⟨k, v⟩ := kv
      by_cases h : k = key
      · simp [setOwner, h, lookupOwner]
      · simp [setOwner, h, lookupOwner, ih]

lemma mem_recentLoop (days : Int) (l : List Entry) (e : Entry) :
    e ∈ recentLoop days l ↔ e ∈ l ∧ 0 ≤ e.days_left ∧ e.days_left ≤ days := by
  induction l with
  | nil => simp [recentLoop]
  | cons x rest ih =>
      by_cases h : 0 ≤ x.days_left ∧ x.days_left ≤ days
      · simp only [recentLoop, if_pos h]
        constructor
        · intro hm
          rcases List.mem_cons.mp hm with hm | hm
          · subst hm
            exact ⟨List.mem_cons_self _ _, h⟩
          · rcases ih.mp hm with ⟨h1, h2⟩
            exact ⟨List.mem_cons_of_mem x h1, h2⟩
        · rintro ⟨hm, hp⟩
          rcases List.mem_cons.mp hm with hm | hm
          · subst hm
            exact List.mem_cons_self _ _
          · exact List.mem_cons_of_mem x (ih.mpr ⟨hm, hp⟩)
      · simp only [recentLoop, if_neg h]
        constructor
        · intro hm
          rcases ih.mp hm with ⟨h1, h2⟩
          exact ⟨List.mem_cons_of_mem x h1, h2⟩
        · rintro ⟨hm, hp⟩
          rcases List.mem_cons.mp hm with hm | hm
          · subst hm
            exact absurd hp h
          · exact ih.mpr ⟨hm, hp⟩

/-! ### Owner-key split lemmas -/

lemma splitU_no_sep (cur l : List Char) (h : '_' ∉ l) :
    splitU cur l = [cur.reverse ++ l] := by
  induction l generalizing cur with
  | nil => simp [splitU]
  | cons c rest ih =>
      have hc : ¬ (c = '_') := by
        intro hcc
        subst hcc
        exact h (List.mem_cons_self _ _)
      have hrest : '_' ∉ rest := fun hr => h (List.mem_cons_of_mem c hr)
      simp only [splitU, if_neg hc]
      rw [ih (c :: cur) hrest]
      simp

lemma splitU_sep (cur l1 l2 : List Char) (h : '_' ∉ l1) :
    splitU cur (l1 ++ '_' :: l2) = (cur.reverse ++ l1) :: splitU [] l2 := by
  induction l1 generalizing cur with
  | nil => simp [splitU]
  | cons c rest ih =>
      have hc : ¬ (c = '_') := by
        intro hcc
        subst hcc
        exact h (List.mem_cons_self _ _)
      have hrest : '_' ∉ rest := fun hr => h (List.mem_cons_of_mem c hr)
      simp only [List.cons_append, List.append_eq, splitU, if_neg hc]
      rw [ih (c :: cur) hrest]
      simp

/-! ### Trace-shape lemmas -/

lemma dim_block (k : String) (cd : Countdown) (d : Int) (ok : Bool) (tr : List Ev)
    (h : deliverImmediatelyMarked tr = true) :
    deliverImmediatelyMarked (Ev.deliver k cd d ok :: Ev.mark k cd.id d :: tr) = true := by
  simp [deliverImmediatelyMarked, h]

lemma dim_scanList_append (o : Oracle) (cfg : List Int) (today : Int) (key : String)
    (l : List Countdown) (tr : List Ev) (h : deliverImmediatelyMarked tr = true) :
    deliverImmediatelyMarked ((scanList o cfg today key l).2 ++ tr) = true := by
  induction l with
  | nil => simpa [scanList] using h
  | cons cd rest ih =>
      simp only [scanList, List.append_assoc]
      by_cases he : eligible cfg today cd
      · simp only [scanRecord_eq, if_pos he, List.cons_append, List.nil_append]
        exact dim_block key cd (days_left cd today) _ _ ih
      · simp only [scanRecord_eq, if_neg he, List.nil_append]
        exact ih

lemma dim_check_append (o : Oracle) (cfg : List Int) (today : Int) (store : Store)
    (tr : List Ev) (h : deliverImmediatelyMarked tr = true) :
    deliverImmediatelyMarked ((check_reminders o cfg today store).2 ++ tr) = true := by
  induction store with
  | nil => simpa [check_reminders] using h
  | cons kl rest ih =>
      obtain ⟨key, l⟩ := kl
      simp only [check_reminders, List.append_assoc]
      exact dim_scanList_append o cfg today key l _ ih

/-! ### Serialization lemmas -/

lemma isStrArray_map_jstr (l : List String) :
    isStrArray (some (JVal.jarr (l.map JVal.jstr))) = true := by
  induction l with
  | nil => rfl
  | cons s rest ih =>
      simp only [isStrArray, List.map_cons, List.all_cons, Bool.and_eq_true] at ih ⊢
      exact ⟨trivial, ih⟩

/-! ### Demonstration data used by concrete counterexamples and witnesses -/

/-- A transport oracle that always succeeds. -/
def demoOracle : Oracle := fun _ _ _ => true

/-- A record seven days ahead of day 0, never notified. -/
def demoRecord : Countdown :=
  { id := 1, name := "生日", target_date := 7, created_date := 0, remark := ""
    notified_days := [] }

/-- A one-owner store holding `demoRecord`. -/
def demoStore : Store := [("alice", [demoRecord])]

/-- C1: a record fires in a scan at `today` iff its days-left equals some
configured threshold whose (stored) form is not yet in `notified_days`; and
once a scan has marked the fired thresholds, any repeated scan at the same
`today` fires nothing and leaves the store unchanged, whatever the delivery
outcomes of either scan were. -/
theorem fires_iff_eligible_and_no_refire (o o2 : Oracle) (cfg : List Int)
    (today : Int) (store : Store) (k : String) (i d : Int) :
    (Ev.mark k i d ∈ (check_reminders o cfg today store).2 ↔
      ∃ l, (k, l) ∈ store ∧ ∃ cd ∈ l, i = cd.id ∧ d = days_left cd today ∧
        d ∈ cfg ∧ toString d ∉ cd.notified_days)
    ∧ (check_reminders o2 cfg today (check_reminders o cfg today store).1).2 = []
    ∧ (check_reminders o2 cfg today (check_reminders o cfg today store).1).1 =
        (check_reminders o cfg today store).1 := by
  refine ⟨?_, ?_, ?_⟩
  · rw [mark_mem_check]
    constructor
    · rintro ⟨l, hl, cd, hcd, hi, rfl, he⟩
      exact ⟨l, hl, cd, hcd, hi, rfl, he.1, he.2⟩
    · rintro ⟨l, hl, cd, hcd, hi, rfl, h1, h2⟩
      exact ⟨l, hl, cd, hcd, hi, rfl, h1, h2⟩
  · rw [rescan_trivial o o2 cfg today store]
  · rw [rescan_trivial o o2 cfg today store]

/-- C2 counterexample: in the trace of a concrete scan that fires threshold
7, the delivery attempt precedes the mark, so the threshold is *not* added
to `notified_days` before or atomically with delivery. -/
theorem delivery_precedes_mark_cex :
    deliveryNeverPrecedesMark
      (check_reminders demoOracle [7, 3, 1] 0 demoStore).2 = false := by
  decide

/-- C2 (amended): whenever the scheduler fires, the delivery attempt comes
first and the threshold is marked immediately after it, unconditionally on
the delivery outcome (`send_reminder` swallows delivery errors). -/
theorem mark_immediately_follows_delivery (o : Oracle) (cfg : List Int)
    (today : Int) (store : Store) :
    deliverImmediatelyMarked (check_reminders o cfg today store).2 = true := by
  have h := dim_check_append o cfg today store [] rfl
  simpa using h

/-- C3: creating with a target date strictly before today fails with the
past-date error and leaves the store (hence the owner's record count)
unchanged; a target date equal to today is accepted whenever the owner is
below the capacity limit. -/
theorem add_rejects_past_accepts_today (m : Int) (store : Store)
    (key name remark : String) (target today : Int) :
    (target < today →
      add_countdown m store key name target today remark = ((false, pastDateMsg), store))
    ∧ (target = today →
        ((get_user_countdowns store key today).length : Int) < m →
        (add_countdown m store key name target today remark).1.1 = true) := by
  constructor
  · intro h
    simp [add_countdown, h]
  · intro h1 h2
    have h3 : ¬ target < today := by omega
    have h4 : ¬ (m ≤ ((get_user_countdowns store key today).length : Int)) :=
      not_le.mpr h2
    simp [add_countdown, h3, h4]

/-- Witness for C3: at concrete inputs, a past date is rejected with the
store unchanged and a same-day date is accepted. -/
theorem add_rejects_past_accepts_today_witness :
    add_countdown 50 [] "u" "n" 3 5 "" = ((false, pastDateMsg), []) ∧
    (add_countdown 50 [] "u" "n" 5 5 "").1.1 = true := by
  constructor
  · exact (add_rejects_past_accepts_today 50 [] "u" "n" "" 3 5).1 (by decide)
  · exact (add_rejects_past_accepts_today 50 [] "u" "n" "" 5 5).2 rfl (by decide)

/-- C10: the recent-countdowns query returns exactly the owner's entries
whose days-left lies between 0 and the requested window inclusive; expired
entries (negative days-left) are never included. -/
theorem recent_returns_exactly_days_window (store : Store) (key : String)
    (today n : Int) (e : Entry) :
    e ∈ get_recent_countdowns store key today n ↔
      e ∈ get_user_countdowns store key today ∧ 0 ≤ e.days_left ∧ e.days_left ≤ n := by
  unfold get_recent_countdowns
  exact mem_recentLoop n (get_user_countdowns store key today) e

/-! ### get_next_id helper lemmas -/

lemma get_next_id_gt (store : Store) (key : String) (l : List Countdown)
    (hl : lookupOwner store key = some l) :
    ∀ cd ∈ l, cd.id < get_next_id store key := by
  intro cd hcd
  have hmem : cd.id ∈ l.map (fun c => c.id) := List.mem_map_of_mem _ hcd
  simp only [get_next_id, hl]
  cases hm : l.map (fun c => c.id) with
  | nil =>
      rw [hm] at hmem
      cases hmem
  | cons x xs =>
      rw [hm] at hmem
      show cd.id < xs.foldl max x + 1
      have hle : cd.id ≤ xs.foldl max x := by
        rcases List.mem_cons.mp hmem with h2 | h2
        · rw [h2]
          exact foldl_max_le_self x xs
        · exact foldl_max_le_mem x cd.id xs h2
      omega

lemma get_next_id_succ_mem (store : Store) (key : String) (l : List Countdown)
    (hl : lookupOwner store key = some l) (hne : l ≠ []) :
    ∃ cd ∈ l, get_next_id store key = cd.id + 1 := by
  simp only [get_next_id, hl]
  cases hm : l.map (fun c => c.id) with
  | nil =>
      cases l with
      | nil => exact absurd rfl hne
      | cons a as => simp at hm
  | cons x xs =>
      rcases foldl_max_mem_or_self x xs with h2 | h2
      · have hx : x ∈ l.map (fun c => c.id) := by
          rw [hm]
          exact List.mem_cons_self x xs
        rcases List.mem_map.mp hx with ⟨cd, hcd, hcdid⟩
        refine ⟨cd, hcd, ?_⟩
        show xs.foldl max x + 1 = cd.id + 1
        rw [h2, hcdid]
      · have hx : xs.foldl max x ∈ l.map (fun c => c.id) := by
          rw [hm]
          exact List.mem_cons_of_mem x h2
        rcases List.mem_map.mp hx with ⟨cd, hcd, hcdid⟩
        refine ⟨cd, hcd, ?_⟩
        show xs.foldl max x + 1 = cd.id + 1
        rw [hcdid]

/-- C4 counterexample: a concrete scan fires threshold 7 and leaves the
record with `notified_days = ["7"]`; the persisted `notified_days` field is
a JSON array of strings, not a sequence of integers. -/
theorem notified_persisted_as_strings_cex :
    (check_reminders demoOracle [7, 3, 1] 0 demoStore).1 =
      [("alice", [⟨1, "生日", 7, 0, "", ["7"]⟩])] ∧
    isIntArray (lookupField
      (serializeCountdown ⟨1, "生日", 7, 0, "", ["7"]⟩) "notified_days") = false := by
  constructor
  · decide
  · rfl

/-- C4 (amended): every record of a post-scan store is persisted with fields
id (a number), name, target_date, created_date and remark, and with
notified_days serialised as a JSON array of *strings*; firing a threshold
appends the decimal string of the fired day-count. -/
theorem notified_persisted_as_strings (o : Oracle) (cfg : List Int) (today : Int)
    (store : Store) (key : String) (l : List Countdown) (cd : Countdown)
    (_h1 : (key, l) ∈ (check_reminders o cfg today store).1) (_h2 : cd ∈ l) :
    lookupField (serializeCountdown cd) "id" = some (JVal.jnum cd.id)
    ∧ lookupField (serializeCountdown cd) "name" = some (JVal.jstr cd.name)
    ∧ lookupField (serializeCountdown cd) "target_date" =
        some (JVal.jstr (dateStr cd.target_date))
    ∧ lookupField (serializeCountdown cd) "created_date" =
        some (JVal.jstr (dateStr cd.created_date))
    ∧ lookupField (serializeCountdown cd) "remark" = some (JVal.jstr cd.remark)
    ∧ lookupField (serializeCountdown cd) "notified_days" =
        some (JVal.jarr (cd.notified_days.map JVal.jstr))
    ∧ isStrArray (lookupField (serializeCountdown cd) "notified_days") = true
    ∧ (∀ cd0, eligible cfg today cd0 →
        (scanRecord o cfg today key cd0).1.notified_days =
          cd0.notified_days ++ [toString (days_left cd0 today)]) := by
  refine ⟨rfl, rfl, rfl, rfl, rfl, rfl, ?_, ?_⟩
  · exact isStrArray_map_jstr cd.notified_days
  · intro cd0 he
    rw [scanRecord_eq, if_pos he]

/-- Witness for C4 (amended) at the record left by the concrete scan of the
counterexample. -/
theorem notified_persisted_as_strings_witness :
    isStrArray (lookupField
      (serializeCountdown ⟨1, "生日", 7, 0, "", ["7"]⟩) "notified_days") = true :=
  (notified_persisted_as_strings demoOracle [7, 3, 1] 0 demoStore "alice"
    [⟨1, "生日", 7, 0, "", ["7"]⟩] ⟨1, "生日", 7, 0, "", ["7"]⟩
    (by decide) (by decide)).2.2.2.2.2.2.1

/-- Intermediate store: owner "u" after adding record "A" (gets id 1). -/
def c5Store1 : Store := (add_countdown 50 [] "u" "A" 5 0 "").2

/-- After also adding record "B" (gets id 2). -/
def c5Store2 : Store := (add_countdown 50 c5Store1 "u" "B" 6 0 "").2

/-- After deleting id 2 ("B"). -/
def c5Store3 : Store := (delete_countdown c5Store2 "u" 2).2

/-- C5 counterexample: record "B" was assigned id 2; after deleting it, the
next add assigns id 2 again to "C", so the id of a since-deleted record is
reused. -/
theorem next_id_reuses_deleted_ids_cex :
    c5Store2 = [("u", [⟨1, "A", 5, 0, "", []⟩, ⟨2, "B", 6, 0, "", []⟩])] ∧
    (add_countdown 50 c5Store3 "u" "C" 7 0 "").2 =
      [("u", [⟨1, "A", 5, 0, "", []⟩, ⟨2, "C", 7, 0, "", []⟩])] := by
  constructor
  · decide
  · decide

/-- C5 (amended): the id assigned next for an owner is the maximum id of the
owner's current records plus one, or 1 when the owner is unknown or has no
records; it is fresh among the *current* records (strictly above every
current id), though ids of since-deleted records can be reused. -/
theorem next_id_is_max_plus_one (store : Store) (key : String) :
    (lookupOwner store key = none → get_next_id store key = 1)
    ∧ (∀ l, lookupOwner store key = some l →
        (l = [] → get_next_id store key = 1)
        ∧ (∀ cd ∈ l, cd.id < get_next_id store key)
        ∧ (l ≠ [] → ∃ cd ∈ l, get_next_id store key = cd.id + 1)) := by
  constructor
  · intro h
    simp [get_next_id, h]
  · intro l hl
    refine ⟨?_, get_next_id_gt store key l hl, get_next_id_succ_mem store key l hl⟩
    intro he
    subst he
    simp [get_next_id, hl]

/-- Witness for C5 (amended): on a concrete one-record store the next id is
the record's id plus one and is fresh. -/
theorem next_id_is_max_plus_one_witness :
    demoRecord.id < get_next_id [("u", [demoRecord])] "u" ∧
    (∃ cd ∈ [demoRecord], get_next_id [("u", [demoRecord])] "u" = cd.id + 1) := by
  have h := (next_id_is_max_plus_one [("u", [demoRecord])] "u").2 [demoRecord] (by decide)
  exact ⟨h.2.1 demoRecord (by decide), h.2.2 (by decide)⟩

/-- The single record of the C6 counterexample: its *name* is the string
"2", its id is 1. -/
def c6Record : Countdown := ⟨1, "2", 5, 0, "", []⟩

/-- C6 counterexample: the owner's only record is named "2"; invoking delete
with 2 matches no id, removes nothing and returns false, although a delete
accepting names (exact or substring policy) would match the record named
"2".  Deletion never consults names. -/
theorem delete_ignores_names_cex :
    delete_countdown [("u", [c6Record])] "u" 2 = (false, [("u", [c6Record])]) ∧
    c6Record.name = "2" := by
  constructor
  · decide
  · rfl

/-- C6 (amended): delete takes an integer id only; it returns true iff some
record of the owner has that id, is a no-op returning false when the owner
or the id is unknown, and on success removes exactly one of the owner's
records. -/
theorem delete_by_integer_id (store : Store) (key : String) (cid : Int) :
    ((delete_countdown store key cid).1 = true ↔
      ∃ l cd, lookupOwner store key = some l ∧ cd ∈ l ∧ cd.id = cid)
    ∧ (lookupOwner store key = none → delete_countdown store key cid = (false, store))
    ∧ ((delete_countdown store key cid).1 = false →
        (delete_countdown store key cid).2 = store)
    ∧ (∀ l, lookupOwner store key = some l → (delete_countdown store key cid).1 = true →
        ∃ l2, lookupOwner (delete_countdown store key cid).2 key = some l2 ∧
          l2.length + 1 = l.length) := by
  cases hl : lookupOwner store key with
  | none =>
      refine ⟨?_, fun _ => by simp [delete_countdown, hl], ?_, ?_⟩
      · simp only [delete_countdown, hl]
        constructor
        · intro h
          cases h
        · rintro ⟨l, cd, hsome, _, _⟩
          cases hsome
      · intro _
        simp [delete_countdown, hl]
      · intro l h
        cases h
  | some l =>
      cases hr : removeFirst cid l with
      | none =>
          have hno : ¬ ∃ cd ∈ l, cd.id = cid := by
            rw [← removeFirst_isSome_iff cid l, hr]
            simp
          refine ⟨?_, ?_, ?_, ?_⟩
          · simp only [delete_countdown, hl, hr]
            constructor
            · intro h
              cases h
            · rintro ⟨l2, cd, hsome, hcd, hid⟩
              cases hsome
              exact absurd ⟨cd, hcd, hid⟩ hno
          · intro h
            cases h
          · intro _
            simp [delete_countdown, hl, hr]
          · intro l0 _ htrue
            simp only [delete_countdown, hl, hr] at htrue
            cases htrue
      | some l2 =>
          have hyes : ∃ cd ∈ l, cd.id = cid := by
            rw [← removeFirst_isSome_iff cid l, hr]
            rfl
          refine ⟨?_, ?_, ?_, ?_⟩
          · constructor
            · intro _
              obtain ⟨cd, hcd, hid⟩ := hyes
              exact ⟨l, cd, rfl, hcd, hid⟩
            · intro _
              simp [delete_countdown, hl, hr]
          · intro h
            cases h
          · intro h
            simp only [delete_countdown, hl, hr] at h
            cases h
          · intro l0 h0 _
            cases h0
            refine ⟨l2, ?_, removeFirst_length cid l l2 hr⟩
            simp only [delete_countdown, hl, hr]
            exact lookupOwner_setOwner_self store key l2

/-- Witness for C6 (amended): deleting the existing id 1 succeeds; deleting
the absent id 9 leaves the store unchanged. -/
theorem delete_by_integer_id_witness :
    (delete_countdown [("u", [c6Record])] "u" 1).1 = true ∧
    (delete_countdown [("u", [c6Record])] "u" 9).2 = [("u", [c6Record])] := by
  constructor
  · exact (delete_by_integer_id [("u", [c6Record])] "u" 1).1.mpr
      ⟨[c6Record], c6Record, by decide, by decide, by decide⟩
  · exact (delete_by_integer_id [("u", [c6Record])] "u" 9).2.2.1 (by decide)

/-! ### Id-sortedness of stored lists, the invariant behind the listing order -/

/-- Every stored list of the store has strictly increasing record ids. -/
def IdSorted (store : Store) : Prop :=
  ∀ k l, lookupOwner store k = some l → l.Pairwise (fun a b => a.id < b.id)

lemma lookupOwner_setOwner_other (store : Store) (key k : String)
    (l : List Countdown) (h : k ≠ key) :
    lookupOwner (setOwner store key l) k = lookupOwner store k := by
  induction store with
  | nil =>
      have h2 : ¬ (key = k) := fun hh => h hh.symm
      simp [setOwner, lookupOwner, h2]
  | cons kv rest ih =>
      obtain ⟨k0, v⟩ := kv
      by_cases h0 : k0 = key
      · have h2 : ¬ (key = k) := fun hh => h hh.symm
        have h3 : ¬ (k0 = k) := by
          rw [h0]
          exact h2
        simp only [setOwner, if_pos h0, lookupOwner, if_neg h2, if_neg h3]
      · simp only [setOwner, if_neg h0, lookupOwner]
        by_cases h1 : k0 = k
        · simp [h1]
        · simp [h1, ih]

lemma add_preserves_IdSorted (m : Int) (store : Store) (key name remark : String)
    (target today : Int) (h : IdSorted store) :
    IdSorted (add_countdown m store key name target today remark).2 := by
  unfold add_countdown
  by_cases h1 : target < today
  · simpa [h1] using h
  · by_cases h2 : m ≤ ((get_user_countdowns store key today).length : Int)
    · simpa [h1, h2] using h
    · simp only [if_neg h1, if_neg h2]
      intro k l hk
      by_cases hkey : k = key
      · subst hkey
        rw [lookupOwner_setOwner_self] at hk
        cases hk
        rw [List.pairwise_append]
        refine ⟨?_, List.pairwise_singleton _ _, ?_⟩
        · cases hold : lookupOwner store k with
          | none => simp [hold]
          | some l0 => simpa [hold] using h k l0 hold
        · intro a ha b hb
          rw [List.mem_singleton] at hb
          subst hb
          show a.id < get_next_id store k
          cases hold : lookupOwner store k with
          | none => rw [hold] at ha; simp at ha
          | some l0 =>
              rw [hold] at ha
              simp only [Option.getD_some] at ha
              exact get_next_id_gt store k l0 hold a ha
      · rw [lookupOwner_setOwner_other store key k _ hkey] at hk
        exact h k l hk

lemma removeFirst_sublist (cid : Int) (l : List Countdown) :
    ∀ l2, removeFirst cid l = some l2 → l2.Sublist l := by
  induction l with
  | nil => intro l2 h; cases h
  | cons cd rest ih =>
      intro l2 h
      by_cases hc : cd.id = cid
      · simp only [removeFirst, if_pos hc, Option.some.injEq] at h
        subst h
        exact List.sublist_cons_self cd rest
      · simp only [removeFirst, if_neg hc, Option.map_eq_some'] at h
        obtain ⟨a, ha, h2⟩ := h
        subst h2
        exact List.Sublist.cons₂ cd (ih a ha)

lemma delete_preserves_IdSorted (store : Store) (key : String) (cid : Int)
    (h : IdSorted store) : IdSorted (delete_countdown store key cid).2 := by
  cases hl : lookupOwner store key with
  | none =>
      simp only [delete_countdown, hl]
      exact h
  | some l =>
      cases hr : removeFirst cid l with
      | none =>
          simp only [delete_countdown, hl, hr]
          exact h
      | some l2 =>
          simp only [delete_countdown, hl, hr]
          intro k l0 hk
          by_cases hkey : k = key
          · subst hkey
            rw [lookupOwner_setOwner_self] at hk
            cases hk
            exact (h k l hl).sublist (removeFirst_sublist cid l l2 hr)
          · rw [lookupOwner_setOwner_other store key k _ hkey] at hk
            exact h k l0 hk

/-- C7: listing an unknown owner yields the empty sequence; for a known
owner, the listing is a permutation of the owner's derived entries and,
whenever the stored list has strictly increasing ids (the invariant that
add_preserves_IdSorted and delete_preserves_IdSorted maintain), it is sorted
by target date ascending with ties broken by id ascending. -/
theorem list_sorted_by_date_then_id (store : Store) (key : String) (today : Int) :
    (lookupOwner store key = none → get_user_countdowns store key today = [])
    ∧ (∀ l, lookupOwner store key = some l →
        List.Perm (get_user_countdowns store key today) (l.map (mkEntry today))
        ∧ (l.Pairwise (fun a b => a.id < b.id) →
            (get_user_countdowns store key today).Pairwise dateIdLT)) := by
  constructor
  · intro h
    simp [get_user_countdowns, h]
  · intro l hl
    constructor
    · simp only [get_user_countdowns, hl]
      exact sortByDate_perm _
    · intro hp
      simp only [get_user_countdowns, hl]
      apply sortByDate_pairwise
      rw [List.pairwise_map]
      exact hp

/-- Witness for C7 at a concrete two-record store with equal target dates:
the listing is date-sorted with the tie broken by id. -/
theorem list_sorted_by_date_then_id_witness :
    (get_user_countdowns
      [("u", [⟨1, "A", 9, 0, "", []⟩, ⟨2, "B", 5, 0, "", []⟩, ⟨3, "C", 9, 0, "", []⟩])]
      "u" 0).Pairwise dateIdLT := by
  have h := (list_sorted_by_date_then_id
    [("u", [⟨1, "A", 9, 0, "", []⟩, ⟨2, "B", 5, 0, "", []⟩, ⟨3, "C", 9, 0, "", []⟩])]
    "u" 0).2
    [⟨1, "A", 9, 0, "", []⟩, ⟨2, "B", 5, 0, "", []⟩, ⟨3, "C", 9, 0, "", []⟩] (by decide)
  exact h.2 (by decide)

/-- A transport oracle that always fails. -/
def failOracle : Oracle := fun _ _ _ => false

/-- A second eligible record, owned by "bob". -/
def c8Record : Countdown := ⟨2, "考试", 7, 0, "", []⟩

/-- A two-owner store in which both records are eligible at day 0 with
threshold 7. -/
def c8Store : Store := [("alice", [demoRecord]), ("bob", [c8Record])]

/-- C8: the store left by a scan and the trace of examined records (up to
transport outcomes) do not depend on the delivery oracle at all; even when
deliveries fail, every eligible record of the scan still receives its
delivery attempt and its mark, so one record's delivery failure never
prevents the remaining records from being processed. -/
theorem scan_survives_delivery_failures (o o2 : Oracle) (cfg : List Int)
    (today : Int) (store : Store) (key : String) (l : List Countdown)
    (cd : Countdown) :
    (check_reminders o cfg today store).1 = (check_reminders o2 cfg today store).1
    ∧ (check_reminders o cfg today store).2.map stripOk =
        (check_reminders o2 cfg today store).2.map stripOk
    ∧ ((key, l) ∈ store → cd ∈ l → eligible cfg today cd →
        Ev.deliver key cd (days_left cd today) (o key cd (days_left cd today)) ∈
          (check_reminders o cfg today store).2
        ∧ Ev.mark key cd.id (days_left cd today) ∈
            (check_reminders o cfg today store).2) :=
  ⟨check_fst_oracle o o2 cfg today store,
   check_evs_oracle o o2 cfg today store,
   fun h1 h2 h3 =>
     ⟨deliver_mem_check o cfg today store key l cd h1 h2 h3,
      mark_mem_check_of_eligible o cfg today store key l cd h1 h2 h3⟩⟩

/-- Witness for C8: with an always-failing transport, the second owner's
eligible record is still marked in the same scan. -/
theorem scan_survives_delivery_failures_witness :
    Ev.mark "bob" 2 7 ∈ (check_reminders failOracle [7, 3, 1] 0 c8Store).2 :=
  ((scan_survives_delivery_failures failOracle demoOracle [7, 3, 1] 0 c8Store
    "bob" [c8Record] c8Record).2.2 (by decide) (by decide) (by decide)).2

/-- C9 counterexample: with a group id containing an underscore, composing
the owner key and decoding it as send_reminder does loses the group:
the reminder for ("u", "a_b") would be delivered to the private chat of "u"
instead of group "a_b". -/
theorem user_key_roundtrip_cex :
    decode_user_key (get_user_key "u" "a_b") = ("u", "") ∧
    (("u", "") : String × String) ≠ ("u", "a_b") := by
  constructor
  · decide
  · decide

/-- C9 (amended): for a user id and a group id neither of which contains an
underscore (group possibly empty), decoding the composed owner key as
send_reminder does recovers exactly the original pair. -/
theorem user_key_roundtrip (u g : String) (hu : '_' ∉ u.data) (hg : '_' ∉ g.data) :
    decode_user_key (get_user_key u g) = (u, g) := by
  by_cases hge : g = ""
  · subst hge
    rw [get_user_key, if_pos rfl]
    unfold decode_user_key split_underscore
    rw [splitU_no_sep [] u.data hu]
    rfl
  · rw [get_user_key, if_neg hge]
    unfold decode_user_key split_underscore
    rw [show (u ++ "_" ++ g).data = (u.data ++ ['_']) ++ g.data from rfl,
      List.append_assoc]
    rw [show ['_'] ++ g.data = '_' :: g.data from rfl]
    rw [splitU_sep [] u.data g.data hu, splitU_no_sep [] g.data hg]
    rfl

/-- Witness for C9 (amended) at concrete underscore-free ids. -/
theorem user_key_roundtrip_witness :
    decode_user_key (get_user_key "alice" "team9") = ("alice", "team9") :=
  user_key_roundtrip "alice" "team9" (by decide) (by decide)
